import Mathlib

/-!
Verification of the aurora / polars_mas repository.

The data model is a shallow embedding of a polars DataFrame: a list of named
columns, each column a list of cells, where a cell is `Option ℚ` and `none`
models a null.  The functions below are translated from
`src/aurora/polars_aurora.py` (PhewasFrame.handle_sex_specific_codes,
PhewasFrame.handle_missing, PhewasFrame.filter_by_count),
`src/polars_mas/model_funcs.py` (polars_firth_regression) and
`src/polars_mas/__init__.py` (_match_columns_to_indices).
-/

namespace Aurora

/-- A named column of a frame; a cell is `Option ℚ`, `none` models a null. -/
structure Col where
  name : String
  values : List (Option ℚ)
deriving Repr, DecidableEq

/-- A frame is a list of columns (column-major view of a polars DataFrame). -/
structure DF where
  cols : List Col
deriving Repr, DecidableEq

/-- Height of the frame: length of its first column.  A frame with no columns
has height 0, matching polars, where selecting zero columns yields a
zero-row frame. -/
def DF.height (df : DF) : ℕ :=
  match df.cols with
  | [] => 0
  | c :: _ => c.values.length

/-- Column names, in schema order (`collect_schema().names()`). -/
def DF.names (df : DF) : List String :=
  df.cols.map (fun c => c.name)

/-- Look a column up by name (first match, as in a frame with unique names). -/
def DF.getCol (df : DF) (n : String) : Option Col :=
  df.cols.find? (fun c => c.name == n)

/-- Well-formedness: every column has the frame's height. -/
def DF.WF (df : DF) : Prop :=
  ∀ c ∈ df.cols, c.values.length = df.height

/-- Row `i` of the frame, as the tuple of the columns' cells at `i`. -/
def DF.row (df : DF) (i : ℕ) : List (Option ℚ) :=
  df.cols.map (fun c => c.values.getD i none)

/-- All rows of the frame in order. -/
def DF.rowsOf (df : DF) : List (List (Option ℚ)) :=
  (List.range df.height).map df.row

/-- Embedding of `df.select(names)`: the named columns in the given order. -/
def selectNames (df : DF) (ns : List String) : DF :=
  ⟨ns.filterMap df.getCol⟩

/-- Embedding of `df.select(pl.all().exclude(*ns))`: drop the named columns,
keeping the rest in their original order. -/
def excludeNames (df : DF) (ns : List String) : DF :=
  ⟨df.cols.filter (fun c => ¬ c.name ∈ ns)⟩

/-- Embedding of `PhewasFrame.handle_sex_specific_codes`
(src/aurora/polars_aurora.py).  The lists of male- and female-specific
phenotype code names come from `aurora.consts` (data, not code) and are
passed as parameters. -/
def handle_sex_specific_codes (maleCodes femaleCodes : List String)
    (df : DF) (drop : Bool) : DF :=
  let colNames := df.names
  let maleCodesInDf := colNames.filter (fun c => c ∈ maleCodes)
  let femaleCodesInDf := colNames.filter (fun c => c ∈ femaleCodes)
  if drop then excludeNames df (maleCodesInDf ++ femaleCodesInDf) else df

/-- The non-`None` fill strategies accepted by `PhewasFrame.handle_missing`. -/
inductive FillMethod
  | forward
  | backward
  | min
  | max
  | mean
  | zero
  | one
deriving Repr, DecidableEq

/-- Replace every null by the constant `q` (polars `fill_null` with a value
or the `zero`/`one` strategies). -/
def fillWith (q : ℚ) (vs : List (Option ℚ)) : List (Option ℚ) :=
  vs.map (fun v => some (v.getD q))

/-- Forward fill: a null takes the closest preceding non-null value
(`last` is the value seen before the list starts; leading nulls stay null). -/
def fillForward : Option ℚ → List (Option ℚ) → List (Option ℚ)
  | _, [] => []
  | last, none :: rest => last :: fillForward last rest
  | _, some x :: rest => some x :: fillForward (some x) rest

/-- Backward fill: a null takes the closest following non-null value
(trailing nulls stay null). -/
def fillBackward : List (Option ℚ) → List (Option ℚ)
  | [] => []
  | none :: rest => rest.findSome? id :: fillBackward rest
  | some x :: rest => some x :: fillBackward rest

/-- Fill nulls with an optional constant; `none` (e.g. the min of an
all-null column) leaves the column unchanged, as polars does. -/
def fillConstOpt (o : Option ℚ) (vs : List (Option ℚ)) : List (Option ℚ) :=
  match o with
  | none => vs
  | some q => fillWith q vs

/-- Non-null cells of a column, in order. -/
def colNonNulls (vs : List (Option ℚ)) : List ℚ :=
  vs.filterMap id

/-- Apply one polars `fill_null` strategy to a single column. -/
def fillCol : FillMethod → List (Option ℚ) → List (Option ℚ)
  | .forward, vs => fillForward none vs
  | .backward, vs => fillBackward vs
  | .min, vs => fillConstOpt (colNonNulls vs).min? vs
  | .max, vs => fillConstOpt (colNonNulls vs).max? vs
  | .mean, vs =>
    fillConstOpt
      (if (colNonNulls vs).isEmpty then none
       else some ((colNonNulls vs).sum / ((colNonNulls vs).length : ℚ)))
      vs
  | .zero, vs => fillWith 0 vs
  | .one, vs => fillWith 1 vs

/-- Does row `i` survive `drop_nulls(subset)`: every subset column is
non-null at `i`.  A subset name absent from the frame imposes nothing. -/
def keepRow (df : DF) (subset : List String) (i : ℕ) : Bool :=
  subset.all (fun n =>
    match df.getCol n with
    | some c => (c.values.getD i none).isSome
    | none => true)

/-- Keep the cells of a column at the indices where `keep` holds, in order. -/
def maskIdx (keep : ℕ → Bool) (vs : List (Option ℚ)) : List (Option ℚ) :=
  ((List.range vs.length).filter keep).map (fun i => vs.getD i none)

/-- Embedding of `df.drop_nulls(subset)`: remove each row having a null in
at least one subset column. -/
def dropNullsDF (df : DF) (subset : List String) : DF :=
  ⟨df.cols.map (fun c => ⟨c.name, maskIdx (keepRow df subset) c.values⟩)⟩

/-- Embedding of `PhewasFrame.handle_missing`
(src/aurora/polars_aurora.py).  `method = none` models Python
`method=None` (drop rows); `some strat` models `fill_null(subset,
strategy)`.  The second component models the printed dropped-row report:
`some k` iff the heights differ, where `k` is `old_height - new_height`. -/
def handle_missing (df : DF) (predictors : List String)
    (method : Option FillMethod) : DF × Option ℕ :=
  match method with
  | none =>
    let newDf := dropNullsDF df predictors
    (newDf,
      if newDf.height ≠ df.height then some (df.height - newDf.height)
      else none)
  | some strat =>
    (⟨df.cols.map (fun c =>
        if c.name ∈ predictors then ⟨c.name, fillCol strat c.values⟩ else c)⟩,
     none)

/-- Case count of a phenotype column: polars `sum`, which skips nulls. -/
def colCases (c : Col) : ℚ :=
  (colNonNulls c.values).sum

/-- Non-null count of a phenotype column: polars `count`. -/
def colTotal (c : Col) : ℚ :=
  ((colNonNulls c.values).length : ℚ)

/-- Control count: non-null count minus case count. -/
def colControls (c : Col) : ℚ :=
  colTotal c - colCases c

/-- Validity of one phenotype for `filter_by_count`: at least `minCases`
cases and at least `minCases` controls, computed from that column alone. -/
def phenoValid (df : DF) (minCases : ℚ) (p : String) : Bool :=
  match df.getCol p with
  | some c => decide (minCases ≤ colCases c ∧ minCases ≤ colControls c)
  | none => false

/-- Embedding of Python `sorted` on column names: a stable sort by the
lexicographic order on strings. -/
def sortStrings (l : List String) : List String :=
  List.insertionSort (fun a b => a ≤ b) l

/-- Embedding of `PhewasFrame.filter_by_count`
(src/aurora/polars_aurora.py).  Per-phenotype case counts are the column
sums, totals the non-null counts, controls their difference; phenotypes
with fewer than `minCases` cases or controls are dropped; the output frame
is `select(pl.all().exclude(phenotypes), *valid_cols)` with `valid_cols`
the `sorted` deduplicated surviving names.  The second component models the
printed drop report: `some k` iff `k`, the number of invalid phenotypes, is
positive. -/
def filter_by_count (df : DF) (phenotypes : List String) (minCases : ℚ) :
    DF × Option ℕ :=
  let invalidCount :=
    (phenotypes.filter (fun p => ! phenoValid df minCases p)).length
  let validCols :=
    sortStrings ((phenotypes.filter (fun p => phenoValid df minCases p)).dedup)
  let outDf : DF :=
    ⟨df.cols.filter (fun c => ¬ c.name ∈ phenotypes) ++
      validCols.filterMap df.getCol⟩
  (outDf, if 0 < invalidCount then some invalidCount else none)

/-- Result shape of one Firth fit, as the orchestration engine reads it:
`pvals_[0]`, `coef_[0]`, `bse_[0]`, `ci_[0][0]`, `ci_[0][1]`. -/
structure FirthFit where
  pval : ℚ
  beta : ℚ
  se : ℚ
  ciLow : ℚ
  ciHigh : ℚ
deriving Repr, DecidableEq

/-- The per-group result record of `polars_firth_regression`; `none` models
the float NaN sentinel of the output struct, and `failed_reason` starts as
the string sentinel "nan". -/
structure FirthOutput where
  pval : Option ℚ
  beta : Option ℚ
  se : Option ℚ
  OR : Option ℚ
  ci_low : Option ℚ
  ci_high : Option ℚ
  cases : Option ℚ
  controls : Option ℚ
  total_n : Option ℚ
  failed_reason : String
deriving Repr, DecidableEq

/-- The all-missing output struct initialised at the top of
`polars_firth_regression`. -/
def initOutput : FirthOutput :=
  ⟨none, none, none, none, none, none, none, none, none, "nan"⟩

/-- Modelled from the spec: `polars_mas.mas_frame.check_grouped_independents_for_constants`
is not under src (only its caller is); per the spec a group-locally
constant column — one with a single distinct non-null value — is removed
and the remaining independent columns are kept, in order. -/
def check_grouped_independents_for_constants (x : DF)
    (independents : List String) : List String :=
  independents.filter (fun n =>
    match x.getCol n with
    | some c => decide ((colNonNulls c.values).dedup.length ≠ 1)
    | none => true)

/-- The design matrix actually fitted: the group frame restricted to the
independents, then restricted again to the non-constant ones. -/
def firthDesign (regframe : DF) (independents : List String) : DF :=
  selectNames (selectNames regframe independents)
    (check_grouped_independents_for_constants
      (selectNames regframe independents) independents)

/-- The response column of the group (`regframe.select(dependent_values)`),
as a list of cells. -/
def yValues (df : DF) (dependentValues : String) : List (Option ℚ) :=
  match df.getCol dependentValues with
  | some c => c.values
  | none => []

/-- Case count of the group: `y.sum()` over the response vector. -/
def groupCases (regframe : DF) (dependentValues : String) : ℚ :=
  (colNonNulls (yValues regframe dependentValues)).sum

/-- Total observation count of the group: `y.shape[0]`. -/
def groupTotal (regframe : DF) (dependentValues : String) : ℚ :=
  ((yValues regframe dependentValues).length : ℚ)

/-- Control count of the group: total minus cases. -/
def groupControls (regframe : DF) (dependentValues : String) : ℚ :=
  groupTotal regframe dependentValues - groupCases regframe dependentValues

/-- The output struct after the counts are written into it, before the fit
is attempted. -/
def firthBase (regframe : DF) (dependentValues : String) : FirthOutput :=
  { initOutput with
    cases := some (groupCases regframe dependentValues)
    controls := some (groupControls regframe dependentValues)
    total_n := some (groupTotal regframe dependentValues) }

/-- The output struct on a successful fit: statistics from the fit result,
the odds ratio being `e ** coef_[0]` (`rexp` abstracts the exponential). -/
def firthSuccess (rexp : ℚ → ℚ) (base : FirthOutput) (f : FirthFit) :
    FirthOutput :=
  { base with
    pval := some f.pval
    beta := some f.beta
    se := some f.se
    OR := some (rexp f.beta)
    ci_low := some f.ciLow
    ci_high := some f.ciHigh }

/-- Embedding of `polars_firth_regression` (src/polars_mas/model_funcs.py).
`fit` abstracts `FirthLogisticRegression(...).fit`, either returning the
fit statistics or raising an exception carried as an error message.  Note
that the `min_cases` guard of the source is commented out, so `minCases`
is accepted but never consulted, exactly as in the source. -/
def polars_firth_regression (rexp : ℚ → ℚ)
    (fit : DF → List (Option ℚ) → Except String FirthFit)
    (regframe : DF) (independents : List String) (dependentValues : String)
    (minCases : ℕ) : FirthOutput :=
  if ¬ (independents.headD "") ∈ (firthDesign regframe independents).names then
    { initOutput with
      failed_reason := "Predictor removed due to constant values" }
  else
    match fit (firthDesign regframe independents)
        (yValues regframe dependentValues) with
    | .ok f => firthSuccess rexp (firthBase regframe dependentValues) f
    | .error e => { firthBase regframe dependentValues with failed_reason := e }

/-- Numeric value of a digit string, as `int` reads it. -/
def digitsToNat (cs : List Char) : ℕ :=
  cs.foldl (fun a c => a * 10 + (c.toNat - 48)) 0

/-- Embedding of Python `str.isnumeric` for index tokens: non-empty and all
digits. -/
def charsNumeric (cs : List Char) : Bool :=
  (! cs.isEmpty) && cs.all Char.isDigit

/-- Embedding of Python `int(...)` on an index token: a value on a
non-empty digit string, otherwise a `ValueError` (`none`). -/
def parseIntChars (cs : List Char) : Option ℕ :=
  if charsNumeric cs then some (digitsToNat cs) else none

/-- Embedding of Python `str.split(sep)` for a one-character separator:
always returns at least one (possibly empty) part. -/
def splitOnChar (sep : Char) : List Char → List (List Char)
  | [] => [[]]
  | x :: xs =>
    if x = sep then [] :: splitOnChar sep xs
    else
      match splitOnChar sep xs with
      | [] => [[x]]
      | h :: t => (x :: h) :: t

/-- Error for a single index at or past the column count. -/
def outOfRangeIndexMsg (i n : ℕ) : String :=
  "Index " ++ Nat.repr i ++ " out of range for " ++ Nat.repr n ++
    " columns in input file."

/-- Error for a range start at or past the column count. -/
def startOutOfRangeMsg (s n : ℕ) : String :=
  "Start index " ++ Nat.repr s ++
    " out of range for input file column indices. " ++ Nat.repr n ++
    " columns found."

/-- Error for a range end at or past the column count. -/
def endOutOfRangeMsg (e : List Char) (n s : ℕ) : String :=
  "End index " ++ String.mk e ++ " out of range for " ++ Nat.repr n ++
    " columns. If you want to use all remaining columns, use " ++
    Nat.repr s ++ "-."

/-- Models the uncaught Python `ValueError` raised by `int` on a
non-numeric token (for example the empty start of a `-end` form). -/
def intParseErrorMsg (cs : List Char) : String :=
  "invalid literal for int() with base 10: " ++ String.mk cs

/-- Error for a token that is neither numeric nor a range. -/
def invalidFormatMsg (cs : List Char) : String :=
  "Invalid index format, must use '-' for a range: " ++ String.mk cs

/-- Models the uncaught Python `ValueError` when `split('-')` does not
yield exactly two parts. -/
def unpackErrorMsg : String :=
  "too many values to unpack"

/-- One comma-free token of `_match_columns_to_indices`: a single numeric
index, or a `start-end` / `start-` range, or an error. -/
def matchSingleChars (part : List Char) (cols : List String) :
    Except String (List String) :=
  if charsNumeric part then
    let index := digitsToNat part
    if cols.length ≤ index then .error (outOfRangeIndexMsg index cols.length)
    else .ok [cols.getD index ""]
  else if '-' ∈ part then
    match splitOnChar '-' part with
    | [startCs, endCs] =>
      match parseIntChars startCs with
      | none => .error (intParseErrorMsg startCs)
      | some startIdx =>
        if cols.length ≤ startIdx then
          .error (startOutOfRangeMsg startIdx cols.length)
        else if endCs.isEmpty then .ok (cols.drop startIdx)
        else
          match parseIntChars endCs with
          | none => .error (intParseErrorMsg endCs)
          | some endIdx =>
            if cols.length ≤ endIdx then
              .error (endOutOfRangeMsg endCs cols.length startIdx)
            else .ok ((cols.take endIdx).drop startIdx)
    | _ => .error unpackErrorMsg
  else .error (invalidFormatMsg part)

/-- The comma branch of `_match_columns_to_indices`: empty parts are
skipped, results are concatenated in order, the first error aborts. -/
def matchManyChars (cols : List String) :
    List (List Char) → Except String (List String)
  | [] => .ok []
  | p :: ps =>
    if p.isEmpty then matchManyChars cols ps
    else
      match matchSingleChars p cols with
      | .error e => .error e
      | .ok r =>
        match matchManyChars cols ps with
        | .error e => .error e
        | .ok rest => .ok (r ++ rest)

/-- Embedding of `_match_columns_to_indices`
(src/polars_mas/__init__.py) on the character list of the token. -/
def matchIndicesChars (cs : List Char) (cols : List String) :
    Except String (List String) :=
  if ',' ∈ cs then matchManyChars cols (splitOnChar ',' cs)
  else matchSingleChars cs cols

/-- Embedding of `_match_columns_to_indices` on a string. -/
def matchColumnsToIndices (indices : String) (colNames : List String) :
    Except String (List String) :=
  matchIndicesChars indices.toList colNames

/-- Which replacement values a fill strategy may write into the nulls of a
column, computed from that column's own non-null values. -/
def allowedFill : FillMethod → List (Option ℚ) → ℚ → Prop
  | .forward, vs, q => some q ∈ vs
  | .backward, vs, q => some q ∈ vs
  | .min, vs, q => (colNonNulls vs).min? = some q
  | .max, vs, q => (colNonNulls vs).max? = some q
  | .mean, vs, q =>
    colNonNulls vs ≠ [] ∧
      q = (colNonNulls vs).sum / ((colNonNulls vs).length : ℚ)
  | .zero, _, q => q = 0
  | .one, _, q => q = 1

/-- Group frame with a constant predictor column: three observations, the
predictor always 1, two cases and one control. -/
def constPredGroup : DF :=
  ⟨[⟨"P", [some 1, some 1, some 1]⟩, ⟨"y", [some 1, some 1, some 0]⟩]⟩

/-- A fitting strategy that is never reached (the predictor is removed
before the fit). -/
def unusedFit : DF → List (Option ℚ) → Except String FirthFit :=
  fun _ _ => .error "unused"

/-- Group frame with a non-constant predictor: three observations, one
case and two controls. -/
def smallGroup : DF :=
  ⟨[⟨"P", [some 1, some 0, some 1]⟩, ⟨"y", [some 1, some 0, some 0]⟩]⟩

/-- A fitting strategy that always raises, with a fixed message. -/
def raisingFit : DF → List (Option ℚ) → Except String FirthFit :=
  fun _ _ => .error "Firth regression failed to converge"

/-- A fitting strategy that always succeeds with fixed statistics. -/
def okFit : DF → List (Option ℚ) → Except String FirthFit :=
  fun _ _ => .ok ⟨1 / 2, 3, 1, 0, 5⟩

/-- Frame for the filter_by_count examples: one covariate column and two
binary phenotype columns over four samples; `D1` has 2 cases and 2
controls, `D2` has 4 cases and no control. -/
def countsFrame : DF :=
  ⟨[⟨"age", [some 1, some 2, some 3, some 4]⟩,
    ⟨"D1", [some 1, some 1, some 0, some 0]⟩,
    ⟨"D2", [some 1, some 1, some 1, some 1]⟩]⟩

/-- Degenerate frame whose only column is a phenotype with no case. -/
def allPhenoFrame : DF :=
  ⟨[⟨"D", [some 0, some 0]⟩]⟩

/-- Frame for the missing-value examples: an independent column with one
null and a dependent column with one null at a different row. -/
def missingFrame : DF :=
  ⟨[⟨"x", [some 1, none, some 3]⟩, ⟨"D", [some 0, some 1, none]⟩]⟩

/-- Frame for the fill examples: nulls in both an independent and a
dependent column. -/
def fillFrame : DF :=
  ⟨[⟨"x", [none, some 4]⟩, ⟨"D", [none, some 1]⟩]⟩

/-- Mapping an index-to-value read over the index range of a list is the
same as mapping over the list itself. -/
theorem rangeGetDMap {α β : Type} (K : List α) (d : α) (g : α → β) :
    (List.range K.length).map (fun j => g (K.getD j d)) = K.map g := by
  induction K with
  | nil => rfl
  | cons a K ih =>
    rw [List.length_cons, List.range_succ_eq_map, List.map_cons, List.map_map,
      List.map_cons]
    refine congrArg (fun t => g a :: t) ?_
    exact ih

/-- Reading a mapped list at an in-range index is the image of the read. -/
theorem mapGetDLt {α β : Type} (f : α → β) (K : List α) (j : ℕ)
    (hj : j < K.length) (db : β) (da : α) :
    (K.map f).getD j db = f (K.getD j da) := by
  induction K generalizing j with
  | nil => exact absurd hj (by simp)
  | cons a K ih =>
    cases j with
    | zero => rfl
    | succ j =>
      rw [List.map_cons, List.getD_cons_succ, List.getD_cons_succ]
      exact ih j (by simpa using hj)

/-- A filter and its negation split the length of a list. -/
theorem filterLengthSplit {α : Type} (p : α → Bool) (l : List α) :
    (l.filter p).length + (l.filter (fun a => ! p a)).length = l.length := by
  induction l with
  | nil => rfl
  | cons a l ih =>
    by_cases h : p a = true
    · simp [List.filter_cons, h]
      omega
    · rw [Bool.not_eq_true] at h
      simp [List.filter_cons, h]
      omega

/-- Finding by name commutes with a name-preserving column map. -/
theorem findNameMap (g : Col → Col) (hg : ∀ c, (g c).name = c.name)
    (n : String) (l : List Col) :
    (l.map g).find? (fun c => c.name == n) =
      (l.find? (fun c => c.name == n)).map g := by
  induction l with
  | nil => rfl
  | cons c l ih =>
    have hpred : ((g c).name == n) = (c.name == n) := by rw [hg]
    by_cases h : (c.name == n) = true
    · rw [List.map_cons,
        @List.find?_cons_of_pos _ (fun c => c.name == n) (g c) (l.map g)
          (by show ((g c).name == n) = true; rw [hpred]; exact h),
        @List.find?_cons_of_pos _ (fun c => c.name == n) c l h]
      rfl
    · rw [List.map_cons,
        @List.find?_cons_of_neg _ (fun c => c.name == n) (g c) (l.map g)
          (by show ¬ ((g c).name == n) = true; rw [hpred]; exact h),
        @List.find?_cons_of_neg _ (fun c => c.name == n) c l h, ih]

/-- A name in the schema is resolved by `getCol` to a column of that name
belonging to the frame. -/
theorem getColOfMemNames {df : DF} {n : String} (h : n ∈ df.names) :
    ∃ c, df.getCol n = some c ∧ c.name = n ∧ c ∈ df.cols := by
  obtain ⟨c0, hc0, hn0⟩ := List.mem_map.mp h
  have hsome : (df.cols.find? (fun c => c.name == n)).isSome = true :=
    List.find?_isSome.mpr ⟨c0, hc0, by simp [hn0]⟩
  obtain ⟨c, hc⟩ := Option.isSome_iff_exists.mp hsome
  refine ⟨c, hc, ?_, List.mem_of_find?_eq_some hc⟩
  have := List.find?_some hc
  exact beq_iff_eq.mp this

/-- A successful `getCol` yields a member column carrying the name. -/
theorem nameOfGetCol {df : DF} {n : String} {c : Col}
    (h : df.getCol n = some c) : c ∈ df.cols ∧ c.name = n := by
  have h' : df.cols.find? (fun c => c.name == n) = some c := h
  refine ⟨@List.mem_of_find?_eq_some _ (fun c => c.name == n) c df.cols h', ?_⟩
  exact beq_iff_eq.mp (@List.find?_some _ (fun c => c.name == n) c df.cols h')

/-- A frame without columns has height zero. -/
theorem heightNil {df : DF} (h : df.cols = []) : df.height = 0 := by
  unfold DF.height
  rw [h]

/-- The height of a frame is the length of its first column. -/
theorem heightCons {df : DF} {c : Col} {cs : List Col} (h : df.cols = c :: cs) :
    df.height = c.values.length := by
  unfold DF.height
  rw [h]

/-- Sorting names neither adds nor removes any. -/
theorem memSortStrings {a : String} {l : List String} :
    a ∈ sortStrings l ↔ a ∈ l :=
  (List.perm_insertionSort (fun a b => a ≤ b) l).mem_iff

/-- Sorted output of `sortStrings`. -/
theorem pairwiseSortStrings (l : List String) :
    (sortStrings l).Pairwise (fun a b => a ≤ b) :=
  List.sorted_insertionSort (fun a b => a ≤ b) l

/-- Filtering through a map commutes with mapping. -/
theorem mapFilterComm {α β : Type} (f : α → β) (p : β → Bool) (l : List α) :
    (l.filter (fun a => p (f a))).map f = (l.map f).filter p := by
  induction l with
  | nil => rfl
  | cons a l ih =>
    by_cases h : p (f a)
    · simp [List.filter_cons, h, ih]
    · simp [List.filter_cons, h, ih]

/-- Resolving a list of schema names by `getCol` returns columns carrying
exactly those names, in order. -/
theorem filterMapGetColNames (df : DF) (ns : List String)
    (h : ∀ n ∈ ns, n ∈ df.names) :
    (ns.filterMap df.getCol).map (fun c => c.name) = ns := by
  induction ns with
  | nil => rfl
  | cons n ns ih =>
    obtain ⟨c, hc, hcn, _⟩ := getColOfMemNames (h n (by simp))
    rw [List.filterMap_cons, hc, List.map_cons, hcn,
      ih (fun m hm => h m (by simp [hm]))]

/-- Length preservation for every fill strategy applied to one column. -/
theorem fillColLength (s : FillMethod) (vs : List (Option ℚ)) :
    (fillCol s vs).length = vs.length := by
  have hw : ∀ (q : ℚ) (l : List (Option ℚ)), (fillWith q l).length = l.length :=
    fun q l => List.length_map l _
  have hc : ∀ (o : Option ℚ) (l : List (Option ℚ)),
      (fillConstOpt o l).length = l.length := by
    intro o l
    cases o with
    | none => rfl
    | some q => exact hw q l
  have hf : ∀ (last : Option ℚ) (l : List (Option ℚ)),
      (fillForward last l).length = l.length := by
    intro last l
    induction l generalizing last with
    | nil => rfl
    | cons v l ih =>
      cases v with
      | none => simp [fillForward, ih]
      | some x => simp [fillForward, ih]
  have hb : ∀ (l : List (Option ℚ)), (fillBackward l).length = l.length := by
    intro l
    induction l with
    | nil => rfl
    | cons v l ih =>
      cases v with
      | none => simp [fillBackward, ih]
      | some x => simp [fillBackward, ih]
  cases s with
  | forward => exact hf none vs
  | backward => exact hb vs
  | min => exact hc _ vs
  | max => exact hc _ vs
  | mean => exact hc _ vs
  | zero => exact hw 0 vs
  | one => exact hw 1 vs

/-- Forward fill keeps every non-null cell in place. -/
theorem fillForwardSome (last : Option ℚ) (vs : List (Option ℚ)) (i : ℕ)
    (x : ℚ) (h : vs[i]? = some (some x)) :
    (fillForward last vs)[i]? = some (some x) := by
  induction vs generalizing last i with
  | nil => simp at h
  | cons v vs ih =>
    cases v with
    | none =>
      cases i with
      | zero => simp at h
      | succ i =>
        rw [List.getElem?_cons_succ] at h
        simpa [fillForward] using ih last i h
    | some y =>
      cases i with
      | zero =>
        rw [List.getElem?_cons_zero] at h
        simpa [fillForward] using h
      | succ i =>
        rw [List.getElem?_cons_succ] at h
        simpa [fillForward] using ih (some y) i h

/-- Backward fill keeps every non-null cell in place. -/
theorem fillBackwardSome (vs : List (Option ℚ)) (i : ℕ) (x : ℚ)
    (h : vs[i]? = some (some x)) :
    (fillBackward vs)[i]? = some (some x) := by
  induction vs generalizing i with
  | nil => simp at h
  | cons v vs ih =>
    cases v with
    | none =>
      cases i with
      | zero => simp at h
      | succ i =>
        rw [List.getElem?_cons_succ] at h
        simpa [fillBackward] using ih i h
    | some y =>
      cases i with
      | zero =>
        rw [List.getElem?_cons_zero] at h
        simpa [fillBackward] using h
      | succ i =>
        rw [List.getElem?_cons_succ] at h
        simpa [fillBackward] using ih i h

/-- Every fill strategy keeps every non-null cell in place. -/
theorem fillColSome (s : FillMethod) (vs : List (Option ℚ)) (i : ℕ) (x : ℚ)
    (h : vs[i]? = some (some x)) : (fillCol s vs)[i]? = some (some x) := by
  have hw : ∀ (q : ℚ), (fillWith q vs)[i]? = some (some x) := by
    intro q
    rw [fillWith, List.getElem?_map, h]
    rfl
  have hc : ∀ (o : Option ℚ), (fillConstOpt o vs)[i]? = some (some x) := by
    intro o
    cases o with
    | none => exact h
    | some q => exact hw q
  cases s with
  | forward => exact fillForwardSome none vs i x h
  | backward => exact fillBackwardSome vs i x h
  | min => exact hc _
  | max => exact hc _
  | mean => exact hc _
  | zero => exact hw 0
  | one => exact hw 1

/-- What forward fill can write into a null cell: the incoming value, or
one of the column's own non-null values. -/
theorem fillForwardNone (last : Option ℚ) (vs : List (Option ℚ)) (i : ℕ)
    (h : vs[i]? = some none) :
    (fillForward last vs)[i]? = some last ∨
      ∃ q, (fillForward last vs)[i]? = some (some q) ∧ some q ∈ vs := by
  induction vs generalizing last i with
  | nil => simp at h
  | cons v vs ih =>
    cases v with
    | none =>
      cases i with
      | zero => left; simp [fillForward]
      | succ i =>
        rw [List.getElem?_cons_succ] at h
        rcases ih last i h with h1 | ⟨q, hq, hmem⟩
        · left; simpa [fillForward] using h1
        · right; exact ⟨q, by simpa [fillForward] using hq, by simp [hmem]⟩
    | some y =>
      cases i with
      | zero => simp at h
      | succ i =>
        rw [List.getElem?_cons_succ] at h
        rcases ih (some y) i h with h1 | ⟨q, hq, hmem⟩
        · right
          refine ⟨y, by simpa [fillForward] using h1, by simp⟩
        · right; exact ⟨q, by simpa [fillForward] using hq, by simp [hmem]⟩

/-- What backward fill can write into a null cell: nothing, or one of the
column's own non-null values. -/
theorem fillBackwardNone (vs : List (Option ℚ)) (i : ℕ)
    (h : vs[i]? = some none) :
    (fillBackward vs)[i]? = some none ∨
      ∃ q, (fillBackward vs)[i]? = some (some q) ∧ some q ∈ vs := by
  induction vs generalizing i with
  | nil => simp at h
  | cons v vs ih =>
    cases v with
    | none =>
      cases i with
      | zero =>
        cases hfs : vs.findSome? id with
        | none => left; simp [fillBackward, hfs]
        | some q =>
          right
          obtain ⟨a, hmem, ha⟩ := List.exists_of_findSome?_eq_some hfs
          simp only [id_eq] at ha
          subst ha
          exact ⟨q, by simp [fillBackward, hfs], by simp [hmem]⟩
      | succ i =>
        rw [List.getElem?_cons_succ] at h
        rcases ih i h with h1 | ⟨q, hq, hmem⟩
        · left; simpa [fillBackward] using h1
        · right; exact ⟨q, by simpa [fillBackward] using hq, by simp [hmem]⟩
    | some y =>
      cases i with
      | zero => simp at h
      | succ i =>
        rw [List.getElem?_cons_succ] at h
        rcases ih i h with h1 | ⟨q, hq, hmem⟩
        · left; simpa [fillBackward] using h1
        · right; exact ⟨q, by simpa [fillBackward] using hq, by simp [hmem]⟩

/-- Every fill strategy writes into a null cell either nothing or a value
computed from that column's own non-null values. -/
theorem fillColNone (s : FillMethod) (vs : List (Option ℚ)) (i : ℕ)
    (h : vs[i]? = some none) :
    (fillCol s vs)[i]? = some none ∨
      ∃ q, (fillCol s vs)[i]? = some (some q) ∧ allowedFill s vs q := by
  have hw : ∀ (q : ℚ), (fillWith q vs)[i]? = some (some q) := by
    intro q
    rw [fillWith, List.getElem?_map, h]
    rfl
  cases s with
  | forward =>
    rcases fillForwardNone none vs i h with h1 | ⟨q, hq, hmem⟩
    · left; exact h1
    · right; exact ⟨q, hq, hmem⟩
  | backward =>
    rcases fillBackwardNone vs i h with h1 | ⟨q, hq, hmem⟩
    · left; exact h1
    · right; exact ⟨q, hq, hmem⟩
  | min =>
    cases hm : (colNonNulls vs).min? with
    | none => left; simpa [fillCol, fillConstOpt, hm] using h
    | some q =>
      right
      exact ⟨q, by simp [fillCol, fillConstOpt, hm, hw q], hm⟩
  | max =>
    cases hm : (colNonNulls vs).max? with
    | none => left; simpa [fillCol, fillConstOpt, hm] using h
    | some q =>
      right
      exact ⟨q, by simp [fillCol, fillConstOpt, hm, hw q], hm⟩
  | mean =>
    cases he : (colNonNulls vs).isEmpty with
    | true => left; simpa [fillCol, fillConstOpt, he] using h
    | false =>
      right
      refine ⟨(colNonNulls vs).sum / ((colNonNulls vs).length : ℚ),
        by simp [fillCol, fillConstOpt, he, hw], ?_, rfl⟩
      simpa [List.isEmpty_iff] using he
  | zero => right; exact ⟨0, hw 0, rfl⟩
  | one => right; exact ⟨1, hw 1, rfl⟩

/-- Claim C1, counterexample: on a group whose only predictor column is
constant, the source returns before writing the counts, so the emitted row
has `cases = none` (NaN) although the group's actual case count is 2; the
claim's demand that the counts be correct fails. -/
theorem c1_counterexample :
    (polars_firth_regression id unusedFit constPredGroup ["P"] "y" 20).failed_reason =
      "Predictor removed due to constant values"
    ∧ (polars_firth_regression id unusedFit constPredGroup ["P"] "y" 20).cases = none
    ∧ groupCases constPredGroup "y" = 2
    ∧ (polars_firth_regression id unusedFit constPredGroup ["P"] "y" 20).cases ≠
        some (groupCases constPredGroup "y") := by
  refine ⟨rfl, rfl, ?_, fun h => Option.noConfusion h⟩
  simp [groupCases, yValues, DF.getCol, constPredGroup, colNonNulls,
    List.find?]
  norm_num

/-- Claim C1, amended: for every group whose primary predictor (the first
independent column) is removed as group-locally constant,
`polars_firth_regression` returns the all-missing output struct with
`failed_reason = "Predictor removed due to constant values"`: the
statistics AND the cases/controls/total_n fields are all missing, because
the function returns before the counts are computed. -/
theorem c1_amended (rexp : ℚ → ℚ)
    (fit : DF → List (Option ℚ) → Except String FirthFit)
    (regframe : DF) (independents : List String) (dependentValues : String)
    (minCases : ℕ)
    (h : ¬ (independents.headD "") ∈ (firthDesign regframe independents).names) :
    polars_firth_regression rexp fit regframe independents dependentValues
        minCases =
      { initOutput with
        failed_reason := "Predictor removed due to constant values" } := by
  unfold polars_firth_regression
  rw [if_pos h]

/-- Claim C1, witness for the amended theorem at the constant-predictor
group. -/
theorem c1_amended_witness :
    (¬ ((["P"] : List String).headD "") ∈
        (firthDesign constPredGroup ["P"]).names)
    ∧ polars_firth_regression id unusedFit constPredGroup ["P"] "y" 20 =
        { initOutput with
          failed_reason := "Predictor removed due to constant values" } :=
  ⟨by decide, c1_amended id unusedFit constPredGroup ["P"] "y" 20 (by decide)⟩

/-- Claim C2: whenever the fitting strategy raises (returns an error
message), `polars_firth_regression` still returns exactly one complete
result record whose `failed_reason` is the exception's message and whose
cases/controls/total_n are the counts computed before the fit
(`firthBase`); the function is total, so no exception escapes and no group
is dropped. -/
theorem c2_exception_yields_labeled_row (rexp : ℚ → ℚ)
    (fit : DF → List (Option ℚ) → Except String FirthFit)
    (regframe : DF) (independents : List String) (dependentValues : String)
    (minCases : ℕ) (msg : String)
    (h1 : (independents.headD "") ∈ (firthDesign regframe independents).names)
    (h2 : fit (firthDesign regframe independents)
        (yValues regframe dependentValues) = .error msg) :
    polars_firth_regression rexp fit regframe independents dependentValues
        minCases =
      { firthBase regframe dependentValues with failed_reason := msg } := by
  unfold polars_firth_regression
  rw [if_neg (not_not_intro h1), h2]

/-- Claim C2, witness: a raising fit on a small non-constant group yields
the labeled row keeping the pre-fit counts. -/
theorem c2_exception_witness :
    ((["P"] : List String).headD "") ∈ (firthDesign smallGroup ["P"]).names
    ∧ raisingFit (firthDesign smallGroup ["P"]) (yValues smallGroup "y") =
        .error "Firth regression failed to converge"
    ∧ polars_firth_regression id raisingFit smallGroup ["P"] "y" 20 =
        { firthBase smallGroup "y" with
          failed_reason := "Firth regression failed to converge" } :=
  ⟨by decide, rfl,
    c2_exception_yields_labeled_row id raisingFit smallGroup ["P"] "y" 20
      "Firth regression failed to converge" (by decide) rfl⟩

/-- Claim C3 (code bug): the `min_cases` guard of `polars_firth_regression`
is commented out in the source, although the docstring still documents
`min_cases` as the minimum number of cases required to perform the
regression.  On a group with 1 case and 2 controls and `min_cases = 20`
the fit IS attempted: the output row carries fit statistics and the
success sentinel `failed_reason = "nan"` instead of an insufficient-cases
failure reason. -/
theorem c3_min_cases_not_enforced :
    groupCases smallGroup "y" = 1
    ∧ groupControls smallGroup "y" = 2
    ∧ (1 : ℚ) < 20
    ∧ (polars_firth_regression id okFit smallGroup ["P"] "y" 20).failed_reason =
        "nan"
    ∧ (polars_firth_regression id okFit smallGroup ["P"] "y" 20).pval =
        some (1 / 2) := by
  refine ⟨?_, ?_, by norm_num, rfl, rfl⟩
  · simp [groupCases, yValues, DF.getCol, smallGroup, colNonNulls, List.find?]
  · simp [groupControls, groupTotal, groupCases, yValues, DF.getCol,
      smallGroup, colNonNulls, List.find?]
    norm_num

/-- Claim C7, counterexample: on the header ["a", "b", "c"] (N = 3) the
`-end` form `-2` does not yield the first two columns but fails parsing
the empty start (Python `int('')` raises), and the range `0-3` with
end = N = 3 is rejected although end-exclusive slicing would make it
valid. -/
theorem c7_counterexample :
    matchColumnsToIndices "-2" ["a", "b", "c"] = .error (intParseErrorMsg [])
    ∧ matchColumnsToIndices "-2" ["a", "b", "c"] ≠ .ok ["a", "b"]
    ∧ matchColumnsToIndices "0-3" ["a", "b", "c"] =
        .error (endOutOfRangeMsg ['3'] 3 0)
    ∧ matchColumnsToIndices "0-3" ["a", "b", "c"] ≠ .ok ["a", "b", "c"] := by
  refine ⟨rfl, fun h => Except.noConfusion h, rfl,
    fun h => Except.noConfusion h⟩

/-- Claim C10, counterexample: on a well-formed two-row frame whose single
column is a phenotype that gets dropped, `filter_by_count` selects no
column at all, so the result has zero rows and the row count is not
preserved. -/
theorem c10_counterexample :
    (filter_by_count allPhenoFrame ["D"] 20).1.height = 0
    ∧ allPhenoFrame.height = 2
    ∧ (∀ c ∈ allPhenoFrame.cols, c.values.length = allPhenoFrame.height) := by
  refine ⟨?_, rfl, by decide⟩
  have hv : phenoValid allPhenoFrame 20 "D" = false := by
    simp [phenoValid, colCases, colControls, colTotal, colNonNulls,
      allPhenoFrame, DF.getCol, List.find?]
  have hfilter :
      List.filter (fun p => phenoValid allPhenoFrame 20 p) ["D"] = [] := by
    simp [hv]
  show DF.height
    ⟨(allPhenoFrame.cols.filter (fun c => ¬ c.name ∈ ["D"])) ++
      ((sortStrings
        ((List.filter (fun p => phenoValid allPhenoFrame 20 p) ["D"]).dedup)).filterMap
          allPhenoFrame.getCol)⟩ = 0
  rw [hfilter]
  rfl

/-- Claim C8: with drop = true, `handle_sex_specific_codes` removes exactly
the columns whose names appear in the male-specific or female-specific
code lists; every other column is kept, in order, with all its cell values
(hence all rows of the retained schema) unchanged. -/
theorem c8_sex_specific_drop (maleCodes femaleCodes : List String) (df : DF) :
    handle_sex_specific_codes maleCodes femaleCodes df true =
      ⟨df.cols.filter
        (fun c => ¬ (c.name ∈ maleCodes ∨ c.name ∈ femaleCodes))⟩ := by
  have h1 : handle_sex_specific_codes maleCodes femaleCodes df true =
      excludeNames df
        ((df.names.filter (fun s => s ∈ maleCodes)) ++
          (df.names.filter (fun s => s ∈ femaleCodes))) := rfl
  rw [h1, excludeNames]
  refine congrArg DF.mk (List.filter_congr ?_)
  intro c hc
  have hn : c.name ∈ df.names := List.mem_map_of_mem (fun c => c.name) hc
  have key : c.name ∈
      ((df.names.filter (fun s => s ∈ maleCodes)) ++
        (df.names.filter (fun s => s ∈ femaleCodes))) ↔
      (c.name ∈ maleCodes ∨ c.name ∈ femaleCodes) := by
    simp [List.mem_append, List.mem_filter, hn]
  exact decide_eq_decide.mpr (not_congr key)

/-- Claim C9: with drop = false (the default), `handle_sex_specific_codes`
returns the input frame unchanged; no per-observation exclusion happens. -/
theorem c9_sex_nodrop_identity (maleCodes femaleCodes : List String)
    (df : DF) :
    handle_sex_specific_codes maleCodes femaleCodes df false = df := rfl

/-- Claim C5: on a well-formed frame the drop strategy (`method = None`)
keeps exactly the rows with no null in any independent column, in order
(first conjunct); every independent column of the output is null-free
(second conjunct); the reported dropped-row count is exactly
`rows_before - rows_after` (third conjunct); and the number of removed
rows is exactly the number of rows having a null in at least one
independent column (fourth conjunct). -/
theorem c5_drop_missing_exact (df : DF) (subset : List String)
    (hwf : df.WF) :
    (handle_missing df subset none).1.rowsOf =
        ((List.range df.height).filter (keepRow df subset)).map df.row
    ∧ (∀ n ∈ subset, ∀ c,
        (handle_missing df subset none).1.getCol n = some c →
          ∀ v ∈ c.values, v.isSome = true)
    ∧ (handle_missing df subset none).2 =
        (if (handle_missing df subset none).1.height ≠ df.height
         then some (df.height - (handle_missing df subset none).1.height)
         else none)
    ∧ (handle_missing df subset none).1.height +
        ((List.range df.height).filter
          (fun i => ! keepRow df subset i)).length = df.height := by
  have hmask : ∀ c ∈ df.cols,
      maskIdx (keepRow df subset) c.values =
        ((List.range df.height).filter (keepRow df subset)).map
          (fun i => c.values.getD i none) := by
    intro c hc
    unfold maskIdx
    rw [hwf c hc]
  have hres : (dropNullsDF df subset).cols =
      df.cols.map (fun c => ⟨c.name, maskIdx (keepRow df subset) c.values⟩) :=
    rfl
  have hhr : (dropNullsDF df subset).height =
      ((List.range df.height).filter (keepRow df subset)).length := by
    cases hcols : df.cols with
    | nil =>
      have h0 : (dropNullsDF df subset).cols = [] := by
        rw [hres, hcols]
        rfl
      rw [heightNil h0, heightNil hcols]
      rfl
    | cons c0 cs =>
      have hc0 : c0 ∈ df.cols := by
        rw [hcols]
        exact List.mem_cons_self c0 cs
      have h1 : (dropNullsDF df subset).cols =
          ⟨c0.name, maskIdx (keepRow df subset) c0.values⟩ ::
            cs.map (fun c => ⟨c.name, maskIdx (keepRow df subset) c.values⟩) := by
        rw [hres, hcols, List.map_cons]
      rw [heightCons h1]
      show (maskIdx (keepRow df subset) c0.values).length = _
      rw [hmask c0 hc0, List.length_map]
  refine ⟨?_, ?_, rfl, ?_⟩
  · show (dropNullsDF df subset).rowsOf = _
    unfold DF.rowsOf
    rw [hhr,
      show ((List.range df.height).filter (keepRow df subset)).map df.row =
        (List.range
          ((List.range df.height).filter (keepRow df subset)).length).map
            (fun j =>
              df.row
                (((List.range df.height).filter (keepRow df subset)).getD j 0))
      from (rangeGetDMap _ 0 df.row).symm]
    refine List.map_congr_left ?_
    intro j hj
    have hjlt :
        j < ((List.range df.height).filter (keepRow df subset)).length :=
      List.mem_range.mp hj
    show (dropNullsDF df subset).cols.map (fun c => c.values.getD j none) = _
    rw [hres, List.map_map]
    refine List.map_congr_left ?_
    intro c hc
    show (maskIdx (keepRow df subset) c.values).getD j none =
      c.values.getD
        (((List.range df.height).filter (keepRow df subset)).getD j 0) none
    rw [hmask c hc]
    exact mapGetDLt (fun i => c.values.getD i none) _ j hjlt none 0
  · intro n hn c hgc
    have hgc' :
        (df.cols.map
          (fun c => Col.mk c.name (maskIdx (keepRow df subset) c.values))).find?
            (fun c => c.name == n) = some c := hgc
    rw [findNameMap (fun c => Col.mk c.name (maskIdx (keepRow df subset) c.values))
      (fun c => rfl) n df.cols] at hgc'
    cases hfind : df.cols.find? (fun c => c.name == n) with
    | none =>
      rw [hfind] at hgc'
      exact absurd hgc' (by simp)
    | some c0 =>
      rw [hfind] at hgc'
      have hc : c = Col.mk c0.name (maskIdx (keepRow df subset) c0.values) :=
        (Option.some.injEq _ _ ▸ hgc').symm
      intro v hv
      rw [hc] at hv
      obtain ⟨i, hi, hval⟩ := List.mem_map.mp hv
      have hkeep : keepRow df subset i = true :=
        (List.mem_filter.mp hi).2
      have hall := List.all_eq_true.mp hkeep n hn
      have hgcol : df.getCol n = some c0 := hfind
      rw [hgcol] at hall
      rw [← hval]
      exact hall
  · rw [show (handle_missing df subset none).1 = dropNullsDF df subset from rfl,
      hhr]
    have hsplit := filterLengthSplit (keepRow df subset) (List.range df.height)
    rwa [List.length_range] at hsplit

/-- Claim C5, witness at a concrete frame: two of three rows survive. -/
theorem c5_drop_missing_witness :
    (handle_missing missingFrame ["x"] none).1.rowsOf =
      ((List.range missingFrame.height).filter
        (keepRow missingFrame ["x"])).map missingFrame.row :=
  (c5_drop_missing_exact missingFrame ["x"]
    (by
      show ∀ c ∈ missingFrame.cols, c.values.length = missingFrame.height
      decide)).1

/-- Claim C6: every fill strategy leaves the drop report empty, preserves
the height and the schema, leaves every column outside the independent
list (in particular every dependent column and its nulls) unchanged, and
inside a listed column changes only null cells, writing into a null either
nothing or a value computed from that column's own non-null values
(`allowedFill`). -/
theorem c6_fill_strategies (df : DF) (predictors : List String)
    (strat : FillMethod) :
    (handle_missing df predictors (some strat)).2 = none
    ∧ (handle_missing df predictors (some strat)).1.height = df.height
    ∧ (handle_missing df predictors (some strat)).1.names = df.names
    ∧ ∀ (j : ℕ) (c : Col), df.cols[j]? = some c →
        ∃ c', (handle_missing df predictors (some strat)).1.cols[j]? = some c'
          ∧ c'.name = c.name
          ∧ (c.name ∉ predictors → c' = c)
          ∧ c'.values.length = c.values.length
          ∧ (∀ (i : ℕ) (x : ℚ), c.values[i]? = some (some x) →
              c'.values[i]? = some (some x))
          ∧ (∀ (i : ℕ), c.values[i]? = some none →
              c'.values[i]? = some none ∨
                ∃ q : ℚ, c'.values[i]? = some (some q) ∧
                  allowedFill strat c.values q) := by
  have hlen : ∀ c : Col,
      (if c.name ∈ predictors then Col.mk c.name (fillCol strat c.values)
       else c).values.length = c.values.length := by
    intro c
    by_cases h : c.name ∈ predictors
    · simp [h, fillColLength]
    · simp [h]
  have hname : ∀ c : Col,
      (if c.name ∈ predictors then Col.mk c.name (fillCol strat c.values)
       else c).name = c.name := by
    intro c
    by_cases h : c.name ∈ predictors
    · simp [h]
    · simp [h]
  have hcolsmap : (handle_missing df predictors (some strat)).1.cols =
      df.cols.map (fun c =>
        if c.name ∈ predictors then Col.mk c.name (fillCol strat c.values)
        else c) := rfl
  refine ⟨rfl, ?_, ?_, ?_⟩
  · cases hcols : df.cols with
    | nil =>
      have h0 : (handle_missing df predictors (some strat)).1.cols = [] := by
        rw [hcolsmap, hcols]
        rfl
      rw [heightNil h0, heightNil hcols]
    | cons c0 cs =>
      have h1 : (handle_missing df predictors (some strat)).1.cols =
          (if c0.name ∈ predictors then Col.mk c0.name (fillCol strat c0.values)
           else c0) ::
            cs.map (fun c =>
              if c.name ∈ predictors then Col.mk c.name (fillCol strat c.values)
              else c) := by
        rw [hcolsmap, hcols, List.map_cons]
      rw [heightCons h1, heightCons hcols]
      exact hlen c0
  · show (handle_missing df predictors (some strat)).1.cols.map
        (fun c => c.name) = df.cols.map (fun c => c.name)
    rw [hcolsmap, List.map_map]
    exact List.map_congr_left (fun c _ => hname c)
  · intro j c hj
    have hjm : (handle_missing df predictors (some strat)).1.cols[j]? =
        some (if c.name ∈ predictors then Col.mk c.name (fillCol strat c.values)
          else c) := by
      rw [hcolsmap, List.getElem?_map, hj]
      rfl
    by_cases hmem : c.name ∈ predictors
    · rw [if_pos hmem] at hjm
      exact ⟨_, hjm, rfl, fun hn => absurd hmem hn,
        fillColLength strat c.values,
        fun i x hx => fillColSome strat c.values i x hx,
        fun i hx => fillColNone strat c.values i hx⟩
    · rw [if_neg hmem] at hjm
      exact ⟨c, hjm, rfl, fun _ => rfl, rfl, fun i x hx => hx,
        fun i hx => Or.inl hx⟩

/-- Claim C6, witness: with the zero strategy on the independent column
`x`, the dependent column `D` — nulls included — is untouched. -/
theorem c6_fill_witness :
    ∃ c', (handle_missing fillFrame ["x"] (some FillMethod.zero)).1.cols[1]? =
        some c'
      ∧ c' = ⟨"D", [none, some 1]⟩ := by
  obtain ⟨c', h1, _, h3, _, _, _⟩ :=
    (c6_fill_strategies fillFrame ["x"] FillMethod.zero).2.2.2 1
      ⟨"D", [none, some 1]⟩ rfl
  exact ⟨c', h1, h3 (by decide)⟩

/-- Claim C4: a phenotype is retained by `filter_by_count` if and only if
its own column has at least `minCases` cases (non-null sum) and at least
`minCases` controls (non-null count minus cases); the decision reads only
that column (it is `phenoValid` of the column found by name), is made on
the wide frame before any per-predictor grouping, and the logged report
carries exactly the number of excluded phenotypes. -/
theorem c4_filter_by_count_iff (df : DF) (phenotypes : List String)
    (minCases : ℚ) (hsub : ∀ p ∈ phenotypes, p ∈ df.names) :
    (∀ p ∈ phenotypes,
      (p ∈ (filter_by_count df phenotypes minCases).1.names ↔
        ∃ c, df.getCol p = some c ∧
          minCases ≤ colCases c ∧ minCases ≤ colControls c))
    ∧ (filter_by_count df phenotypes minCases).2 =
        (if 0 <
            (phenotypes.filter (fun p => ! phenoValid df minCases p)).length
         then
           some ((phenotypes.filter
             (fun p => ! phenoValid df minCases p)).length)
         else none) := by
  have hvsub : ∀ n ∈ sortStrings
      ((phenotypes.filter (fun p => phenoValid df minCases p)).dedup),
      n ∈ df.names := by
    intro n hn
    have hn' := memSortStrings.mp hn
    rw [List.mem_dedup] at hn'
    exact hsub n (List.mem_filter.mp hn').1
  have h2names :
      ((sortStrings
        ((phenotypes.filter (fun p => phenoValid df minCases p)).dedup)).filterMap
          df.getCol).map (fun c => c.name) =
        sortStrings
          ((phenotypes.filter (fun p => phenoValid df minCases p)).dedup) :=
    filterMapGetColNames df _ hvsub
  have hsplit : (filter_by_count df phenotypes minCases).1.names =
      ((df.cols.filter (fun c => ¬ c.name ∈ phenotypes)).map
          (fun c => c.name)) ++
        ((sortStrings
          ((phenotypes.filter (fun p => phenoValid df minCases p)).dedup)).filterMap
            df.getCol).map (fun c => c.name) := by
    show (df.cols.filter (fun c => ¬ c.name ∈ phenotypes) ++
        (sortStrings
          ((phenotypes.filter (fun p => phenoValid df minCases p)).dedup)).filterMap
            df.getCol).map (fun c => c.name) = _
    rw [List.map_append]
  refine ⟨?_, rfl⟩
  intro p hp
  obtain ⟨c, hc, hcn, hcmem⟩ := getColOfMemNames (hsub p hp)
  have hvalid : phenoValid df minCases p = true ↔
      (minCases ≤ colCases c ∧ minCases ≤ colControls c) := by
    unfold phenoValid
    rw [hc]
    simp
  rw [hsplit, List.mem_append, h2names]
  constructor
  · rintro (hL | hR)
    · exfalso
      obtain ⟨c0, hc0mem, hc0n⟩ := List.mem_map.mp hL
      have hnp := (List.mem_filter.mp hc0mem).2
      rw [decide_eq_true_eq] at hnp
      exact hnp (hc0n ▸ hp)
    · rw [memSortStrings, List.mem_dedup, List.mem_filter] at hR
      exact ⟨c, hc, hvalid.mp hR.2⟩
  · rintro ⟨c1, hc1, hb1, hb2⟩
    right
    rw [memSortStrings, List.mem_dedup, List.mem_filter]
    have hcc : c1 = c := by
      have hsame := hc1.symm.trans hc
      exact (Option.some.injEq _ _ ▸ hsame)
    refine ⟨hp, hvalid.mpr ?_⟩
    rw [← hcc]
    exact ⟨hb1, hb2⟩

/-- Claim C4, witness: with threshold 2 on the concrete frame, `D1`
(2 cases / 2 controls) is retained and `D2` (4 cases / 0 controls) is
excluded. -/
theorem c4_filter_witness :
    "D1" ∈ (filter_by_count countsFrame ["D1", "D2"] 2).1.names
    ∧ ¬ "D2" ∈ (filter_by_count countsFrame ["D1", "D2"] 2).1.names := by
  have h := (c4_filter_by_count_iff countsFrame ["D1", "D2"] 2 (by decide)).1
  constructor
  · refine (h "D1" (by decide)).mpr
      ⟨⟨"D1", [some 1, some 1, some 0, some 0]⟩, rfl, ?_, ?_⟩
    · show (2 : ℚ) ≤ colCases ⟨"D1", [some 1, some 1, some 0, some 0]⟩
      simp [colCases, colNonNulls]
      norm_num
    · show (2 : ℚ) ≤ colControls ⟨"D1", [some 1, some 1, some 0, some 0]⟩
      simp [colControls, colTotal, colCases, colNonNulls]
      norm_num
  · intro hmem
    obtain ⟨c, hc, _, hb2⟩ := (h "D2" (by decide)).mp hmem
    have hc' : some (⟨"D2", [some 1, some 1, some 1, some 1]⟩ : Col) = some c :=
      hc
    have hcc : c = ⟨"D2", [some 1, some 1, some 1, some 1]⟩ :=
      ((Option.some.injEq _ _ ▸ hc') : _ = c).symm
    rw [hcc] at hb2
    have hzero : colControls (⟨"D2", [some 1, some 1, some 1, some 1]⟩ : Col) =
        0 := by
      simp [colControls, colTotal, colCases, colNonNulls]
      norm_num
    rw [hzero] at hb2
    exact absurd hb2 (by norm_num)

/-- Claim C10, amended: `filter_by_count` keeps every surviving column
verbatim (a column of the input frame, with the input height), reorders
the schema to the non-phenotype columns in original order followed by the
surviving phenotypes in sorted (lexicographic) name order, and preserves
the row count whenever at least one column survives the selection; in the
degenerate case where no column is selected the result is a zero-column,
zero-row frame (as in polars). -/
theorem c10_amended (df : DF) (phenotypes : List String) (minCases : ℚ)
    (hwf : df.WF) (hsub : ∀ p ∈ phenotypes, p ∈ df.names) :
    (∀ c ∈ (filter_by_count df phenotypes minCases).1.cols,
        c ∈ df.cols ∧ c.values.length = df.height)
    ∧ (filter_by_count df phenotypes minCases).1.names =
        df.names.filter (fun n => ¬ n ∈ phenotypes) ++
          sortStrings
            ((phenotypes.filter (fun p => phenoValid df minCases p)).dedup)
    ∧ (sortStrings
        ((phenotypes.filter (fun p => phenoValid df minCases p)).dedup)).Pairwise
          (fun a b => a ≤ b)
    ∧ ((filter_by_count df phenotypes minCases).1.cols ≠ [] →
        (filter_by_count df phenotypes minCases).1.height = df.height) := by
  have hvsub : ∀ n ∈ sortStrings
      ((phenotypes.filter (fun p => phenoValid df minCases p)).dedup),
      n ∈ df.names := by
    intro n hn
    have hn' := memSortStrings.mp hn
    rw [List.mem_dedup] at hn'
    exact hsub n (List.mem_filter.mp hn').1
  have hmemall : ∀ c ∈ (filter_by_count df phenotypes minCases).1.cols,
      c ∈ df.cols ∧ c.values.length = df.height := by
    intro c hc
    have hc' : c ∈ df.cols.filter (fun c => ¬ c.name ∈ phenotypes) ++
        (sortStrings
          ((phenotypes.filter (fun p => phenoValid df minCases p)).dedup)).filterMap
            df.getCol := hc
    rcases List.mem_append.mp hc' with hL | hR
    · have hmem := (List.mem_filter.mp hL).1
      exact ⟨hmem, hwf c hmem⟩
    · obtain ⟨n, _, hn2⟩ := List.mem_filterMap.mp hR
      have hmem := (nameOfGetCol hn2).1
      exact ⟨hmem, hwf c hmem⟩
  refine ⟨hmemall, ?_, pairwiseSortStrings _, ?_⟩
  · show (df.cols.filter (fun c => ¬ c.name ∈ phenotypes) ++
        (sortStrings
          ((phenotypes.filter (fun p => phenoValid df minCases p)).dedup)).filterMap
            df.getCol).map (fun c => c.name) = _
    rw [List.map_append]
    congr 1
    · exact mapFilterComm (fun c : Col => c.name)
        (fun n => decide (¬ n ∈ phenotypes)) df.cols
    · exact filterMapGetColNames df _ hvsub
  · intro hne
    obtain ⟨c0, cs, hc0⟩ := List.exists_cons_of_ne_nil hne
    have hc0mem : c0 ∈ (filter_by_count df phenotypes minCases).1.cols := by
      rw [hc0]
      exact List.mem_cons_self c0 cs
    rw [heightCons hc0]
    exact (hmemall c0 hc0mem).2

/-- A successful `parseIntChars` means a non-empty all-digit token whose
value is its decimal reading. -/
theorem parseIntInfo {cs : List Char} {i : ℕ}
    (h : parseIntChars cs = some i) :
    charsNumeric cs = true ∧ digitsToNat cs = i
      ∧ cs.all Char.isDigit = true ∧ cs.isEmpty = false := by
  unfold parseIntChars at h
  cases hn : charsNumeric cs with
  | false =>
    rw [hn] at h
    simp at h
  | true =>
    rw [hn] at h
    simp at h
    have hn' := hn
    unfold charsNumeric at hn'
    rw [Bool.and_eq_true] at hn'
    refine ⟨rfl, h, hn'.2, ?_⟩
    have := hn'.1
    cases he : cs.isEmpty with
    | false => rfl
    | true => rw [he] at this; exact absurd this (by simp)

/-- A character that is not a digit does not occur in an all-digit token. -/
theorem noDigitMem {cs : List Char} (hall : cs.all Char.isDigit = true)
    {c : Char} (hc : c.isDigit = false) : ¬ c ∈ cs := by
  intro hmem
  have := List.all_eq_true.mp hall c hmem
  rw [hc] at this
  exact absurd this (by simp)

/-- A token containing a non-digit character is not numeric. -/
theorem charsNumericFalse {cs : List Char} {c : Char} (hmem : c ∈ cs)
    (hc : c.isDigit = false) : charsNumeric cs = false := by
  unfold charsNumeric
  cases hall : cs.all Char.isDigit with
  | false => simp
  | true =>
    have := List.all_eq_true.mp hall c hmem
    rw [hc] at this
    exact absurd this (by simp)

/-- Splitting a separator-free token yields that token alone. -/
theorem splitNoSep (sep : Char) (cs : List Char) (h : ¬ sep ∈ cs) :
    splitOnChar sep cs = [cs] := by
  induction cs with
  | nil => rfl
  | cons x xs ih =>
    have hx : ¬ x = sep := fun he => h (he ▸ List.mem_cons_self x xs)
    have hxs : ¬ sep ∈ xs := fun hm => h (List.mem_cons_of_mem x hm)
    unfold splitOnChar
    rw [if_neg hx, ih hxs]

/-- Splitting at the first separator occurrence peels off the leading
part. -/
theorem splitAtSep (sep : Char) (pre post : List Char) (h : ¬ sep ∈ pre) :
    splitOnChar sep (pre ++ sep :: post) = pre :: splitOnChar sep post := by
  induction pre with
  | nil =>
    show splitOnChar sep (sep :: post) = [] :: splitOnChar sep post
    conv_lhs => unfold splitOnChar
    rw [if_pos rfl]
  | cons x pre ih =>
    have hx : ¬ x = sep := fun he => h (he ▸ List.mem_cons_self x pre)
    have hpre : ¬ sep ∈ pre := fun hm => h (List.mem_cons_of_mem x hm)
    show splitOnChar sep (x :: (pre ++ sep :: post)) =
      (x :: pre) :: splitOnChar sep post
    conv_lhs => unfold splitOnChar
    rw [if_neg hx, ih hpre]

/-- Evaluation of a numeric single token against a header. -/
theorem matchSingleNumeric {ds : List Char} {i : ℕ} (cols : List String)
    (h : parseIntChars ds = some i) :
    matchSingleChars ds cols =
      (if cols.length ≤ i then
        Except.error (outOfRangeIndexMsg i cols.length)
      else Except.ok [cols.getD i ""]) := by
  obtain ⟨hnum, hval, _, _⟩ := parseIntInfo h
  unfold matchSingleChars
  rw [hnum, hval]
  simp

/-- A numeric token holds no separator, so the top-level dispatch sends it
to the single-token branch. -/
theorem matchIndicesNumeric {ds : List Char} {i : ℕ} (cols : List String)
    (h : parseIntChars ds = some i) :
    matchIndicesChars ds cols = matchSingleChars ds cols := by
  obtain ⟨_, _, hall, _⟩ := parseIntInfo h
  unfold matchIndicesChars
  rw [if_neg (noDigitMem hall (by decide))]

/-- Evaluation of a dash token `ds-es` (neither part containing a dash,
the whole containing no comma and not numeric): the range branch of the
source, with the source's evaluation order. -/
theorem matchDashToken (cols : List String) (ds es : List Char)
    (hd : ¬ '-' ∈ ds) (he : ¬ '-' ∈ es) (hc : ¬ ',' ∈ ds ++ '-' :: es)
    (hnn : charsNumeric (ds ++ '-' :: es) = false) :
    matchIndicesChars (ds ++ '-' :: es) cols =
      (match parseIntChars ds with
       | none => Except.error (intParseErrorMsg ds)
       | some startIdx =>
         if cols.length ≤ startIdx then
           Except.error (startOutOfRangeMsg startIdx cols.length)
         else if es.isEmpty then Except.ok (cols.drop startIdx)
         else
           match parseIntChars es with
           | none => Except.error (intParseErrorMsg es)
           | some endIdx =>
             if cols.length ≤ endIdx then
               Except.error (endOutOfRangeMsg es cols.length startIdx)
             else Except.ok ((cols.take endIdx).drop startIdx)) := by
  unfold matchIndicesChars
  rw [if_neg hc]
  unfold matchSingleChars
  rw [hnn]
  simp only [Bool.false_eq_true, if_false]
  rw [if_pos (show '-' ∈ ds ++ '-' :: es from
    List.mem_append_right ds (List.mem_cons_self '-' es))]
  rw [splitAtSep '-' ds es hd, splitNoSep '-' es he]

/-- Claim C7, amended: the index-expression parser accepts comma-separated
numeric tokens and the range forms `start-end` and `start-` with
end-exclusive semantics: a single index i < N yields [col_names[i]], and
an index at or past N is rejected with an error naming the bound;
`start-end` requires start < N and end < N (end = N is rejected with an
error naming the bound, although end-exclusive slicing would make it
valid) and yields col_names[start:end]; `start-` yields col_names[start:];
the `-end` form is rejected because the empty start fails integer parsing;
a comma-separated pair of in-range indices yields both columns in order;
and an out-of-range start index, in both the `start-end` and the `start-`
form, is rejected with an error naming the bound (the last two
conjuncts). -/
theorem c7_amended (cols : List String) :
    (∀ (ds : List Char) (i : ℕ), parseIntChars ds = some i →
        i < cols.length →
        matchColumnsToIndices (String.mk ds) cols = .ok [cols.getD i ""])
    ∧ (∀ (ds : List Char) (i : ℕ), parseIntChars ds = some i →
        cols.length ≤ i →
        matchColumnsToIndices (String.mk ds) cols =
          .error (outOfRangeIndexMsg i cols.length))
    ∧ (∀ (ds es : List Char) (s e : ℕ), parseIntChars ds = some s →
        parseIntChars es = some e → s < cols.length → e < cols.length →
        matchColumnsToIndices (String.mk (ds ++ '-' :: es)) cols =
          .ok ((cols.take e).drop s))
    ∧ (∀ (ds es : List Char) (s e : ℕ), parseIntChars ds = some s →
        parseIntChars es = some e → s < cols.length → cols.length ≤ e →
        matchColumnsToIndices (String.mk (ds ++ '-' :: es)) cols =
          .error (endOutOfRangeMsg es cols.length s))
    ∧ (∀ (ds : List Char) (s : ℕ), parseIntChars ds = some s →
        s < cols.length →
        matchColumnsToIndices (String.mk (ds ++ ['-'])) cols =
          .ok (cols.drop s))
    ∧ (∀ (es : List Char) (e : ℕ), parseIntChars es = some e →
        matchColumnsToIndices (String.mk ('-' :: es)) cols =
          .error (intParseErrorMsg []))
    ∧ (∀ (ds es : List Char) (i j : ℕ), parseIntChars ds = some i →
        parseIntChars es = some j → i < cols.length → j < cols.length →
        matchColumnsToIndices (String.mk (ds ++ ',' :: es)) cols =
          .ok [cols.getD i "", cols.getD j ""])
    ∧ (∀ (ds es : List Char) (s e : ℕ), parseIntChars ds = some s →
        parseIntChars es = some e → cols.length ≤ s →
        matchColumnsToIndices (String.mk (ds ++ '-' :: es)) cols =
          .error (startOutOfRangeMsg s cols.length))
    ∧ (∀ (ds : List Char) (s : ℕ), parseIntChars ds = some s →
        cols.length ≤ s →
        matchColumnsToIndices (String.mk (ds ++ ['-'])) cols =
          .error (startOutOfRangeMsg s cols.length)) := by
  have hdash : ∀ (ds es : List Char), ds.all Char.isDigit = true →
      es.all Char.isDigit = true →
      matchIndicesChars (ds ++ '-' :: es) cols =
        (match parseIntChars ds with
         | none => Except.error (intParseErrorMsg ds)
         | some startIdx =>
           if cols.length ≤ startIdx then
             Except.error (startOutOfRangeMsg startIdx cols.length)
           else if es.isEmpty then Except.ok (cols.drop startIdx)
           else
             match parseIntChars es with
             | none => Except.error (intParseErrorMsg es)
             | some endIdx =>
               if cols.length ≤ endIdx then
                 Except.error (endOutOfRangeMsg es cols.length startIdx)
               else Except.ok ((cols.take endIdx).drop startIdx)) := by
    intro ds es hallds halles
    have hcm : ¬ ',' ∈ ds ++ '-' :: es := by
      intro hm
      rcases List.mem_append.mp hm with h1 | h2
      · exact noDigitMem hallds (by decide) h1
      · rcases List.mem_cons.mp h2 with h3 | h4
        · exact absurd h3 (by decide)
        · exact noDigitMem halles (by decide) h4
    exact matchDashToken cols ds es (noDigitMem hallds (by decide))
      (noDigitMem halles (by decide)) hcm
      (charsNumericFalse
        (List.mem_append_right ds (List.mem_cons_self '-' es)) (by decide))
  refine ⟨?_, ?_, ?_, ?_, ?_, ?_, ?_, ?_, ?_⟩
  · intro ds i hp hlt
    show matchIndicesChars ds cols = _
    rw [matchIndicesNumeric cols hp, matchSingleNumeric cols hp,
      if_neg (not_le.mpr hlt)]
  · intro ds i hp hge
    show matchIndicesChars ds cols = _
    rw [matchIndicesNumeric cols hp, matchSingleNumeric cols hp, if_pos hge]
  · intro ds es s e hps hpe hslt helt
    obtain ⟨_, _, hallds, _⟩ := parseIntInfo hps
    obtain ⟨_, _, halles, hnees⟩ := parseIntInfo hpe
    show matchIndicesChars (ds ++ '-' :: es) cols = _
    rw [hdash ds es hallds halles, hps]
    have h1 : ¬ cols.length ≤ s := not_le.mpr hslt
    have h2 : ¬ cols.length ≤ e := not_le.mpr helt
    simp [hpe, hnees, h1, h2]
  · intro ds es s e hps hpe hslt hege
    obtain ⟨_, _, hallds, _⟩ := parseIntInfo hps
    obtain ⟨_, _, halles, hnees⟩ := parseIntInfo hpe
    show matchIndicesChars (ds ++ '-' :: es) cols = _
    rw [hdash ds es hallds halles, hps]
    have h1 : ¬ cols.length ≤ s := not_le.mpr hslt
    simp [hpe, hnees, h1, hege]
  · intro ds s hps hslt
    obtain ⟨_, _, hallds, _⟩ := parseIntInfo hps
    show matchIndicesChars (ds ++ '-' :: []) cols = _
    rw [hdash ds [] hallds rfl, hps]
    have h1 : ¬ cols.length ≤ s := not_le.mpr hslt
    simp [h1]
  · intro es e hpe
    obtain ⟨_, _, halles, _⟩ := parseIntInfo hpe
    show matchIndicesChars ([] ++ '-' :: es) cols = _
    rw [hdash [] es rfl halles]
    rfl
  · intro ds es i j hpi hpj hilt hjlt
    obtain ⟨_, _, hallds, hneds⟩ := parseIntInfo hpi
    obtain ⟨_, _, halles, hnees⟩ := parseIntInfo hpj
    show matchIndicesChars (ds ++ ',' :: es) cols = _
    unfold matchIndicesChars
    rw [if_pos (List.mem_append_right ds (List.mem_cons_self ',' es)),
      splitAtSep ',' ds es (noDigitMem hallds (by decide)),
      splitNoSep ',' es (noDigitMem halles (by decide))]
    unfold matchManyChars
    rw [matchSingleNumeric cols hpi, if_neg (not_le.mpr hilt)]
    simp only [hneds, Bool.false_eq_true, if_false]
    unfold matchManyChars
    rw [matchSingleNumeric cols hpj, if_neg (not_le.mpr hjlt)]
    simp only [hnees, Bool.false_eq_true, if_false]
    rfl
  · intro ds es s e hps hpe hsge
    obtain ⟨_, _, hallds, _⟩ := parseIntInfo hps
    obtain ⟨_, _, halles, _⟩ := parseIntInfo hpe
    show matchIndicesChars (ds ++ '-' :: es) cols = _
    rw [hdash ds es hallds halles, hps]
    simp [hsge]
  · intro ds s hps hsge
    obtain ⟨_, _, hallds, _⟩ := parseIntInfo hps
    show matchIndicesChars (ds ++ '-' :: []) cols = _
    rw [hdash ds [] hallds rfl, hps]
    simp [hsge]

/-- Claim C7, witness for the amended theorem: concrete accepted and
rejected tokens against the header ["a", "b", "c"]. -/
theorem c7_amended_witness :
    matchColumnsToIndices "1" ["a", "b", "c"] = .ok ["b"]
    ∧ matchColumnsToIndices "0-2" ["a", "b", "c"] = .ok ["a", "b"]
    ∧ matchColumnsToIndices "1-" ["a", "b", "c"] = .ok ["b", "c"]
    ∧ matchColumnsToIndices "1,2" ["a", "b", "c"] = .ok ["b", "c"]
    ∧ matchColumnsToIndices "5" ["a", "b", "c"] =
        .error (outOfRangeIndexMsg 5 3)
    ∧ matchColumnsToIndices "5-6" ["a", "b", "c"] =
        .error (startOutOfRangeMsg 5 3)
    ∧ matchColumnsToIndices "5-" ["a", "b", "c"] =
        .error (startOutOfRangeMsg 5 3) := by
  refine ⟨?_, ?_, ?_, ?_, ?_, ?_, ?_⟩
  · exact (c7_amended ["a", "b", "c"]).1 ['1'] 1 rfl (by norm_num)
  · exact (c7_amended ["a", "b", "c"]).2.2.1 ['0'] ['2'] 0 2 rfl rfl
      (by norm_num) (by norm_num)
  · exact (c7_amended ["a", "b", "c"]).2.2.2.2.1 ['1'] 1 rfl (by norm_num)
  · exact (c7_amended ["a", "b", "c"]).2.2.2.2.2.2.1 ['1'] ['2'] 1 2 rfl rfl
      (by norm_num) (by norm_num)
  · exact (c7_amended ["a", "b", "c"]).2.1 ['5'] 5 rfl (by norm_num)
  · exact (c7_amended ["a", "b", "c"]).2.2.2.2.2.2.2.1 ['5'] ['6'] 5 6 rfl rfl
      (by norm_num)
  · exact (c7_amended ["a", "b", "c"]).2.2.2.2.2.2.2.2 ['5'] 5 rfl
      (by norm_num)

/-- Claim C10, witness: on the concrete frame with threshold 2 the result
keeps a column, so the row count is preserved. -/
theorem c10_amended_witness :
    (filter_by_count countsFrame ["D1", "D2"] 2).1.height =
      countsFrame.height := by
  have h := c10_amended countsFrame ["D1", "D2"] 2
    (by
      show ∀ c ∈ countsFrame.cols, c.values.length = countsFrame.height
      decide)
    (by decide)
  have hne : (filter_by_count countsFrame ["D1", "D2"] 2).1.cols ≠ [] := by
    intro h0
    have hn := h.2.1
    have hnil : (filter_by_count countsFrame ["D1", "D2"] 2).1.names = [] := by
      show (filter_by_count countsFrame ["D1", "D2"] 2).1.cols.map
        (fun c => c.name) = []
      rw [h0]
      rfl
    rw [hnil] at hn
    have hage : "age" ∈ countsFrame.names.filter
        (fun n => ¬ n ∈ ["D1", "D2"]) := by decide
    have : "age" ∈ ([] : List String) := by
      rw [hn]
      exact List.mem_append_left _ hage
    simp at this
  exact h.2.2.2 hne

end Aurora
